import Mathlib

/-!
Verification of the typed-input-forms library (core validator chain,
field-state projection, field mapping adapter and the form-state
orchestrator's valid-value accessor) against its specification.

The TypeScript sources are shallowly embedded: JavaScript runtime values
are modelled by the inductive `JsValue`, form values by association lists
from field names to `JsValue`, error maps by association lists from field
names to `Option String` (mirroring `Partial<Record<K, string | undefined>>`,
where an absent key and a key holding `undefined` are distinguishable),
and the immutable validator chain (`src/core/src/input-form-validator.ts`)
by the inductive `Chain` with one constructor per class
(`NoopInputFormValidator`, `ChildInputFormValidator`,
`ConditionalInputFormValidator`).
-/

/-- A JavaScript runtime value, as far as the library inspects values:
`undefined`, booleans, numbers (modelled as rationals), strings and arrays.
Object values other than arrays are not inspected by any validator and are
not needed for the properties below. -/
inductive JsValue where
  | undef : JsValue
  | bool (b : Bool) : JsValue
  | num (q : ℚ) : JsValue
  | str (s : String) : JsValue
  | arr (xs : List JsValue) : JsValue

mutual

/-- Decidable equality of JavaScript values (written by hand because
`deriving DecidableEq` does not support this nested inductive).
JavaScript strict equality `===` is modelled by equality of `JsValue`;
for the primitive values all properties below are instantiated with, the
two notions agree (reference identity of arrays is modelled as equality
of the model values). -/
def JsValue.decEq : (a b : JsValue) → Decidable (a = b)
  | .undef, .undef => .isTrue rfl
  | .undef, .bool _ => .isFalse (fun h => JsValue.noConfusion h)
  | .undef, .num _ => .isFalse (fun h => JsValue.noConfusion h)
  | .undef, .str _ => .isFalse (fun h => JsValue.noConfusion h)
  | .undef, .arr _ => .isFalse (fun h => JsValue.noConfusion h)
  | .bool _, .undef => .isFalse (fun h => JsValue.noConfusion h)
  | .bool a, .bool b =>
      if h : a = b then .isTrue (h ▸ rfl)
      else .isFalse (fun hh => h (JsValue.bool.inj hh))
  | .bool _, .num _ => .isFalse (fun h => JsValue.noConfusion h)
  | .bool _, .str _ => .isFalse (fun h => JsValue.noConfusion h)
  | .bool _, .arr _ => .isFalse (fun h => JsValue.noConfusion h)
  | .num _, .undef => .isFalse (fun h => JsValue.noConfusion h)
  | .num _, .bool _ => .isFalse (fun h => JsValue.noConfusion h)
  | .num a, .num b =>
      if h : a = b then .isTrue (h ▸ rfl)
      else .isFalse (fun hh => h (JsValue.num.inj hh))
  | .num _, .str _ => .isFalse (fun h => JsValue.noConfusion h)
  | .num _, .arr _ => .isFalse (fun h => JsValue.noConfusion h)
  | .str _, .undef => .isFalse (fun h => JsValue.noConfusion h)
  | .str _, .bool _ => .isFalse (fun h => JsValue.noConfusion h)
  | .str _, .num _ => .isFalse (fun h => JsValue.noConfusion h)
  | .str a, .str b =>
      if h : a = b then .isTrue (h ▸ rfl)
      else .isFalse (fun hh => h (JsValue.str.inj hh))
  | .str _, .arr _ => .isFalse (fun h => JsValue.noConfusion h)
  | .arr _, .undef => .isFalse (fun h => JsValue.noConfusion h)
  | .arr _, .bool _ => .isFalse (fun h => JsValue.noConfusion h)
  | .arr _, .num _ => .isFalse (fun h => JsValue.noConfusion h)
  | .arr _, .str _ => .isFalse (fun h => JsValue.noConfusion h)
  | .arr xs, .arr ys =>
      match JsValue.decEqList xs ys with
      | .isTrue h => .isTrue (h ▸ rfl)
      | .isFalse h => .isFalse (fun hh => h (JsValue.arr.inj hh))

/-- Decidable equality of lists of JavaScript values. -/
def JsValue.decEqList : (xs ys : List JsValue) → Decidable (xs = ys)
  | [], [] => .isTrue rfl
  | [], _ :: _ => .isFalse (fun h => List.noConfusion h)
  | _ :: _, [] => .isFalse (fun h => List.noConfusion h)
  | x :: xs, y :: ys =>
      match JsValue.decEq x y, JsValue.decEqList xs ys with
      | .isTrue h1, .isTrue h2 => .isTrue (by rw [h1, h2])
      | .isFalse h1, _ => .isFalse (fun hh => h1 (List.cons.inj hh).1)
      | _, .isFalse h2 => .isFalse (fun hh => h2 (List.cons.inj hh).2)

end

instance : DecidableEq JsValue := JsValue.decEq

/-- `typeof v === 'string'` -/
def JsValue.isJsString : JsValue → Bool
  | .str _ => true
  | _ => false

/-- `typeof v === 'number'` -/
def JsValue.isJsNumber : JsValue → Bool
  | .num _ => true
  | _ => false

/-- `Array.isArray(v)` (the `isArray` utility of `src/unnamed/part_000`). -/
def JsValue.isJsArray : JsValue → Bool
  | .arr _ => true
  | _ => false

/-- A form value: a JavaScript object mapping field names to field values,
modelled as an association list in property-insertion order. Reading an
absent key yields `undefined`, as in JavaScript. -/
abbrev FormValue := List (String × JsValue)

/-- JavaScript property read `value[field]`: the first binding for the key,
or `undefined` when the key is absent. -/
def FormValue.get : FormValue → String → JsValue
  | [], _ => .undef
  | (k, w) :: rest, n => if k = n then w else FormValue.get rest n

/-- JavaScript property write `value[field] = v` (after a shallow copy):
replaces the existing binding in place, or appends a new one. -/
def FormValue.set : FormValue → String → JsValue → FormValue
  | [], n, v => [(n, v)]
  | (k, w) :: rest, n, v =>
      if k = n then (n, v) :: rest else (k, w) :: FormValue.set rest n v

/-- An error map `Partial<Record<keyof FormValue, string | undefined>>`:
an association list from field names to `string | undefined` values.
A key bound to `none` models a key present with value `undefined`. -/
abbrev ErrMap := List (String × Option String)

/-- `Object.keys` (the `keysOf` utility) on an error map. -/
def ErrMap.keys (m : ErrMap) : List String := m.map Prod.fst

/-- Whether the key is present, and with which (possibly `undefined`) value. -/
def ErrMap.entry? : ErrMap → String → Option (Option String)
  | [], _ => none
  | (k, v) :: rest, n => if k = n then some v else ErrMap.entry? rest n

/-- JavaScript property read `errors[field]`: `undefined` both when the key
is absent and when it is present with value `undefined`. -/
def ErrMap.idx (m : ErrMap) (k : String) : Option String :=
  (ErrMap.entry? m k).getD none

/-- JavaScript property write `errors[field] = v`. -/
def ErrMap.set : ErrMap → String → Option String → ErrMap
  | [], k, v => [(k, v)]
  | (k', v') :: rest, k, v =>
      if k' = k then (k, v) :: rest else (k', v') :: ErrMap.set rest k v

/-- The `InputFieldValidator` interface of `input-form-validator.ts`:
an error message and a validation predicate receiving the field value and
the whole form value. -/
structure FieldValidator where
  error : String
  validate : JsValue → FormValue → Bool

/-- The immutable validator chain. `noop` is `NoopInputFormValidator`,
`child` is `ChildInputFormValidator` (a field rule wrapping a parent),
`conditional` is `ConditionalInputFormValidator` (a predicate-gated
sub-chain wrapping a parent). -/
inductive Chain where
  | noop : Chain
  | child (validatedField : String) (validator : FieldValidator) (parent : Chain) : Chain
  | conditional (predicate : FormValue → Bool) (sub : Chain) (parent : Chain) : Chain

/-- `isFieldValid(field, value)` of the three `InputFormValidator` classes. -/
def Chain.isFieldValid : Chain → String → FormValue → Bool
  | .noop, _, _ => true
  | .child vf val parent, field, value =>
      if !(Chain.isFieldValid parent field value) then false
      else if !(vf = field : Bool) then true
      else val.validate (FormValue.get value field) value
  | .conditional pred sub parent, field, value =>
      if !(Chain.isFieldValid parent field value) then false
      else if pred value then Chain.isFieldValid sub field value
      else true

/-- `getValidatedFields()` of the three `InputFormValidator` classes. -/
def Chain.getValidatedFields : Chain → List String
  | .noop => []
  | .child vf _ parent =>
      let validatedFields := Chain.getValidatedFields parent
      if validatedFields.contains vf then validatedFields
      else validatedFields ++ [vf]
  | .conditional _ sub parent =>
      (Chain.getValidatedFields sub).foldl
        (fun acc f => if acc.contains f then acc else acc ++ [f])
        (Chain.getValidatedFields parent)

/-- `getFieldErrors(value)` of the three `InputFormValidator` classes. -/
def Chain.getFieldErrors : Chain → FormValue → ErrMap
  | .noop, _ => []
  | .child vf val parent, value =>
      let fieldErrors := Chain.getFieldErrors parent value
      if (ErrMap.keys fieldErrors).contains vf then fieldErrors
      else if !(val.validate (FormValue.get value vf) value) then
        ErrMap.set fieldErrors vf (some val.error)
      else fieldErrors
  | .conditional pred sub parent, value =>
      let fieldErrors := Chain.getFieldErrors parent value
      let existingFieldsWithErrors := ErrMap.keys fieldErrors
      if ((Chain.getValidatedFields sub).find?
            (fun f => !(existingFieldsWithErrors.contains f))).isNone
          || !(pred value) then fieldErrors
      else
        let conditionalFieldErrors := Chain.getFieldErrors sub value
        ((ErrMap.keys conditionalFieldErrors).filter
            (fun f => !(existingFieldsWithErrors.contains f))).foldl
          (fun acc f => ErrMap.set acc f (ErrMap.idx conditionalFieldErrors f))
          fieldErrors

/-! ### Builder operations of `InputFormValidator` (input-form-validator.ts) -/

/-- `appendFieldValidator(field, validator)`: wraps the current chain in a
new `ChildInputFormValidator`. -/
def Chain.appendFieldValidator (c : Chain) (field : String) (v : FieldValidator) : Chain :=
  Chain.child field v c

/-- `when(predicate, validatorBuilder)`: builds a nested chain starting from
a fresh `NoopInputFormValidator` and wraps the current chain in a
`ConditionalInputFormValidator`. -/
def Chain.when (c : Chain) (predicate : FormValue → Bool)
    (validatorBuilder : Chain → Chain) : Chain :=
  Chain.conditional predicate (validatorBuilder Chain.noop) c

/-- `notUndefined(field, error)`: the predicate is `fieldValue !== undefined`. -/
def Chain.notUndefined (c : Chain) (field error : String) : Chain :=
  Chain.appendFieldValidator c field
    { error := error, validate := fun fieldValue _ => !(fieldValue == JsValue.undef) }

/-- `notUndefinedWithNoError(field)` is `notUndefined(field, '')`. -/
def Chain.notUndefinedWithNoError (c : Chain) (field : String) : Chain :=
  Chain.notUndefined c field ""

/-- `appendStringValidator(field, error, validate)`: the stored predicate is
`typeof fieldValue === 'string' && validate(fieldValue, formValue)`. -/
def Chain.appendStringValidator (c : Chain) (field error : String)
    (validate : String → FormValue → Bool) : Chain :=
  Chain.appendFieldValidator c field
    { error := error
      validate := fun fieldValue formValue =>
        match fieldValue with
        | .str s => validate s formValue
        | _ => false }

/-- `appendNumberValidator(field, error, validate)`: the stored predicate is
`typeof fieldValue === 'number' && validate(fieldValue, formValue)`. -/
def Chain.appendNumberValidator (c : Chain) (field error : String)
    (validate : ℚ → FormValue → Bool) : Chain :=
  Chain.appendFieldValidator c field
    { error := error
      validate := fun fieldValue formValue =>
        match fieldValue with
        | .num q => validate q formValue
        | _ => false }

/-- `notEmpty(field, error)`: `isArray(fieldValue) && fieldValue.length > 0`. -/
def Chain.notEmpty (c : Chain) (field error : String) : Chain :=
  Chain.appendFieldValidator c field
    { error := error
      validate := fun fieldValue _ =>
        match fieldValue with
        | .arr xs => decide (xs.length > 0)
        | _ => false }

/-- JavaScript `String.prototype.trim`: strips leading and trailing
whitespace. -/
def jsStrTrim (s : String) : String :=
  (((s.toList.dropWhile Char.isWhitespace).reverse.dropWhile
      Char.isWhitespace).reverse).asString

/-- `notBlank(field, error)`: a string validator with `str.trim() !== ''`. -/
def Chain.notBlank (c : Chain) (field error : String) : Chain :=
  Chain.appendStringValidator c field error (fun str _ => !(jsStrTrim str == ""))

/-- `minLength(field, error, min)`: a string validator with
`str.length >= min`. -/
def Chain.minLength (c : Chain) (field error : String) (min : ℚ) : Chain :=
  Chain.appendStringValidator c field error (fun str _ => decide ((str.length : ℚ) ≥ min))

/-- `maxLength(field, error, max)`: a string validator with
`str.length <= max`. -/
def Chain.maxLength (c : Chain) (field error : String) (max : ℚ) : Chain :=
  Chain.appendStringValidator c field error (fun str _ => decide ((str.length : ℚ) ≤ max))

/-- `hasLength(field, error, length)`: a string validator with
`str.length === length`. -/
def Chain.hasLength (c : Chain) (field error : String) (length : ℚ) : Chain :=
  Chain.appendStringValidator c field error (fun str _ => decide ((str.length : ℚ) = length))

/-- A compiled JavaScript regular expression, used by the library only
through its `test` method (which never throws). -/
structure JsRegExp where
  test : String → Bool

/-- Modelled from the host JavaScript runtime (not repository code):
whether `new RegExp(p)` compiles. The `RegExp` constructor throws a
`SyntaxError` on a malformed pattern; this model rejects the basic
malformations (an unterminated character class such as `"["`, an
unbalanced group, a trailing backslash) and accepts everything else.
The scanner state is: remaining characters, inside-escape flag,
inside-character-class flag, open-group depth. -/
def regExpScan : List Char → Bool → Bool → Nat → Bool
  | [], esc, inClass, depth => !esc && !inClass && depth == 0
  | _ :: rest, true, inClass, depth => regExpScan rest false inClass depth
  | c :: rest, false, true, depth =>
      if c = '\\' then regExpScan rest true true depth
      else if c = ']' then regExpScan rest false false depth
      else regExpScan rest false true depth
  | c :: rest, false, false, depth =>
      if c = '\\' then regExpScan rest true false depth
      else if c = '[' then regExpScan rest false true depth
      else if c = '(' then regExpScan rest false false (depth + 1)
      else if c = ')' then (depth != 0) && regExpScan rest false false (depth - 1)
      else regExpScan rest false false depth

/-- Whether a pattern string is accepted by the (modelled) host `RegExp`
constructor. -/
def jsRegExpWellFormed (p : String) : Bool :=
  regExpScan p.toList false false 0

/-- Modelled from the host JavaScript runtime (not repository code):
`new RegExp(p)` for a string `p` — `none` models the thrown `SyntaxError`.
No property below depends on the matching behaviour of a pattern compiled
from a string, so the `test` function of a successfully compiled pattern
is an arbitrary executable placeholder. -/
def jsRegExpCompile (p : String) : Option JsRegExp :=
  if jsRegExpWellFormed p then some { test := fun s => s == p } else none

/-- `pattern(field, pattern, error)` with a `RegExp` argument: no
compilation happens and a string validator with `regExp.test(value)` is
appended. -/
def Chain.patternRegExp (c : Chain) (field : String) (r : JsRegExp) (error : String) : Chain :=
  Chain.appendStringValidator c field error (fun value _ => r.test value)

/-- `pattern(field, pattern, error)` with a string argument: the source
runs `regExp = new RegExp(pattern)` with no surrounding try/catch, so a
`SyntaxError` thrown by the host constructor propagates out of the builder
call; this is modelled by the `Except.error` result. -/
def Chain.patternStr (c : Chain) (field p error : String) : Except String Chain :=
  match jsRegExpCompile p with
  | none => Except.error ("SyntaxError: Invalid regular expression: " ++ p)
  | some r => Except.ok (Chain.patternRegExp c field r error)

/-- Character class `[^\s@]` of the email pattern. -/
def emailAtomChar (c : Char) : Bool := !(c.isWhitespace || c == '@')

/-- Character class `[^\s@.,]` of the email pattern. -/
def emailDomChar (c : Char) : Bool :=
  !(c.isWhitespace || c == '@' || c == '.' || c == ',')

/-- Modelled from the host JavaScript regex engine: matching
`([^\s@.,]+\.)+[^\s@.,]{2,}` at the start of the character list (with
arbitrary trailing characters permitted, since `test` searches for any
match). `grp` records whether at least one `[^\s@.,]+\.` group has been
consumed; `fuel` bounds the recursion by the list length. -/
def emailDomainMatch : Nat → Bool → List Char → Bool
  | 0, _, _ => false
  | fuel + 1, grp, cs =>
      let run := cs.takeWhile emailDomChar
      let rest := cs.drop run.length
      if grp && decide (run.length ≥ 2) then true
      else
        match rest with
        | '.' :: rest2 => decide (run.length ≥ 1) && emailDomainMatch fuel true rest2
        | _ => false

/-- Matching the whole email pattern `[^\s@]+@([^\s@.,]+\.)+[^\s@.,]{2,}`
at the start of the character list (trailing characters permitted). -/
def emailMatchAt (cs : List Char) : Bool :=
  let run := cs.takeWhile emailAtomChar
  let rest := cs.drop run.length
  match rest with
  | '@' :: rest2 =>
      decide (run.length ≥ 1) && emailDomainMatch (rest2.length + 1) false rest2
  | _ => false

/-- Unanchored search, as performed by `RegExp.prototype.test`. -/
def emailSearch : List Char → Bool
  | [] => false
  | c :: cs => emailMatchAt (c :: cs) || emailSearch cs

/-- The compiled regex literal `/[^\s@]+@([^\s@.,]+\.)+[^\s@.,]{2,}/` of
`validMail` (a regex literal is compiled by the host at parse time and is
well formed, so no failure is possible here). -/
def emailRegExp : JsRegExp :=
  { test := fun s => emailSearch s.toList }

/-- `validMail(field, error)` is `pattern(field, /[^\s@]+@([^\s@.,]+\.)+[^\s@.,]{2,}/, error)`. -/
def Chain.validMail (c : Chain) (field error : String) : Chain :=
  Chain.patternRegExp c field emailRegExp error

/-- The scheme characters allowed after the leading letter of a URL scheme. -/
def urlSchemeChar (c : Char) : Bool :=
  c.isAlphanum || c == '+' || c == '-' || c == '.'

/-- The `protocol` property of a parsed URL. -/
structure JsURL where
  protocol : String

/-- Modelled from the host JavaScript runtime (not repository code):
`new URL(str)` — `none` models the thrown `TypeError` for a string that is
not an absolute URL. The model only recognises the scheme (a letter
followed by scheme characters and a colon) and exposes the lower-cased
`protocol`; nothing below depends on the rest of URL parsing. -/
def jsParseUrl (s : String) : Option JsURL :=
  match s.toList with
  | [] => none
  | c :: rest =>
      if c.isAlpha then
        let run := rest.takeWhile urlSchemeChar
        let after := rest.drop run.length
        match after with
        | ':' :: _ => some { protocol := ((c :: run).map Char.toLower).asString ++ ":" }
        | _ => none
      else none

/-- `validUrl(field, error)`: a string validator which tries
`new URL(str)`, returns whether the protocol is `http:` or `https:`, and
catches any construction failure as `false` (the try/catch of the source
is the `Option` match here). -/
def Chain.validUrl (c : Chain) (field error : String) : Chain :=
  Chain.appendStringValidator c field error (fun str _ =>
    match jsParseUrl str with
    | some url => url.protocol == "http:" || url.protocol == "https:"
    | none => false)

/-- `require(field, error, validate)`. -/
def Chain.require (c : Chain) (field error : String)
    (validate : JsValue → FormValue → Bool) : Chain :=
  Chain.appendFieldValidator c field { error := error, validate := validate }

/-- `requireWithNoError(field, validate)`. -/
def Chain.requireWithNoError (c : Chain) (field : String)
    (validate : JsValue → FormValue → Bool) : Chain :=
  Chain.appendFieldValidator c field { error := "", validate := validate }

/-- `notEquals(field, invalidValue, error)`:
`require(field, error, value => value !== invalidValue)`. -/
def Chain.notEquals (c : Chain) (field : String) (invalidValue : JsValue)
    (error : String) : Chain :=
  Chain.require c field error (fun value _ => !(value == invalidValue))

/-- `greaterThan(field, min, error)`: a number validator with `num > min`. -/
def Chain.greaterThan (c : Chain) (field : String) (min : ℚ) (error : String) : Chain :=
  Chain.appendNumberValidator c field error (fun num _ => decide (num > min))

/-- `isPositive(field, error)` is `greaterThan(field, 0, error)`. -/
def Chain.isPositive (c : Chain) (field error : String) : Chain :=
  Chain.greaterThan c field 0 error

/-- `isInteger(field, error)`: a number validator with
`num === Math.floor(num)`. -/
def Chain.isInteger (c : Chain) (field error : String) : Chain :=
  Chain.appendNumberValidator c field error (fun num _ => decide (num = (num.floor : ℚ)))

/-! ### Field state projection (input-form-field.ts) -/

/-- The state captured by an `InputFormFieldsHandler` instance: the current
form value, the current touched-field list and the precomputed error map.
The two setters of the source are modelled by returning the updated
snapshots from the operations below. -/
structure FieldsHandler where
  formValue : FormValue
  touchedFields : List String
  errors : ErrMap

/-- The updater function passed to `setFormValue` by `setValue`:
`prevState => { if (prevState[name] === fieldValue) return prevState;
const newValue = { ...prevState }; newValue[name] = fieldValue;
return newValue; }`. -/
def setValueUpdater (name : String) (fieldValue : JsValue) (prevState : FormValue) : FormValue :=
  if FormValue.get prevState name == fieldValue then prevState
  else FormValue.set prevState name fieldValue

/-- The full effect of the accessor's `setValue(fieldValue)`: the form
value after the updater is applied to the handler's current value, and the
touched-field list after the unconditional
`if (!this.touchedFields.includes(name)) setTouchedFields([...this.touchedFields, name])`. -/
def fieldSetValue (h : FieldsHandler) (name : String) (fieldValue : JsValue) :
    FormValue × List String :=
  (setValueUpdater name fieldValue h.formValue,
   if h.touchedFields.contains name then h.touchedFields
   else h.touchedFields ++ [name])

/-- The accessor's `markAsTouched()`: the touched list after
`if (!includes(name)) setTouchedFields([...touchedFields, name])`. -/
def fieldMarkAsTouched (h : FieldsHandler) (name : String) : List String :=
  if h.touchedFields.contains name then h.touchedFields
  else h.touchedFields ++ [name]

/-- The accessor's `isTouched()`: `this.touchedFields.includes(name)`. -/
def fieldIsTouched (h : FieldsHandler) (name : String) : Bool :=
  h.touchedFields.contains name

/-- The accessor's `isInvalid()`: `this.errors[name] !== undefined`. -/
def fieldIsInvalid (h : FieldsHandler) (name : String) : Bool :=
  (ErrMap.idx h.errors name).isSome

/-- The accessor's `isValid()`: `this.errors[name] === undefined`. -/
def fieldIsValid (h : FieldsHandler) (name : String) : Bool :=
  (ErrMap.idx h.errors name).isNone

/-- The accessor's `isShowError()`:
`this.touchedFields.includes(name) && this.errors[name] !== undefined`. -/
def fieldIsShowError (h : FieldsHandler) (name : String) : Bool :=
  h.touchedFields.contains name && (ErrMap.idx h.errors name).isSome

/-- The accessor's `getErrorMessage()`:
`this.errors[name] === '' ? undefined : this.errors[name]`. -/
def fieldGetErrorMessage (h : FieldsHandler) (name : String) : Option String :=
  if ErrMap.idx h.errors name == some "" then none else ErrMap.idx h.errors name

/-- The handler's lazy per-field accessor cache `this.fields`, tracked by
the set of field names for which an accessor object has been created (an
accessor is fully determined by the handler state and its field name, so
only the presence of a cache entry matters). The proxy's `get` trap
creates and stores the accessor before returning it:
`if (this.fields[name] === undefined) { this.fields[name] = { ... } }`.
This is its effect on the cache for a string key. -/
def proxyGet (fields : List String) (name : String) : List String :=
  if fields.contains name then fields else fields ++ [name]

/-- The lookup performed inside the accessor's `map(mapper, inversMapper)`
closure at call time: `const field = this.fields[name]; if (field ===
undefined) throw new Error('Failed to map form field ' + name); return new
MappedInputFormField(field, mapper, inversMapper)` — constructing the
mapped field always succeeds once the delegate is defined, so a successful
call is modelled by `Except.ok`. -/
def fieldMapLookup (fields : List String) (name : String) : Except String Unit :=
  if fields.contains name then Except.ok ()
  else Except.error ("Failed to map form field " ++ name)

/-! ### Field mapping adapter (MappedInputFormField) -/

/-- A field value as returned by `getValue()`: either a plain value or a
pending promise, modelled together with the value it resolves to. -/
inductive VP where
  | val (v : JsValue) : VP
  | promise (resolved : JsValue) : VP

/-- The value a possibly-pending result resolves to. -/
def VP.resolvedValue : VP → JsValue
  | .val v => v
  | .promise v => v

/-- The part of the `InputFormField` interface needed for the mapping
round trip: `getValue` and `setValue` (the effect of `setValue` is the
pair of updated snapshots, as in `fieldSetValue`). -/
structure FieldIface where
  getValue : VP
  setValue : JsValue → FormValue × List String

/-- The accessor for field `name` materialised by the proxy handler,
restricted to `getValue` (`() => this.formValue[name]`, always a plain
value) and `setValue` (see `fieldSetValue`). -/
def baseFieldIface (h : FieldsHandler) (name : String) : FieldIface :=
  { getValue := VP.val (FormValue.get h.formValue name)
    setValue := fun v => fieldSetValue h name v }

/-- `MappedInputFormField`: `getValue()` applies the mapper to the
delegate's value (through `.then` when the delegate's value is a pending
promise, which flattens a promise-returning mapper); `setValue(value)`
calls the delegate's `setValue` on `inverseMapper(value)`. -/
def mappedFieldIface (delegate : FieldIface) (mapper : JsValue → VP)
    (inverseMapper : JsValue → JsValue) : FieldIface :=
  { getValue :=
      match delegate.getValue with
      | .promise v => VP.promise (mapper v).resolvedValue
      | .val v => mapper v
    setValue := fun value => delegate.setValue (inverseMapper value) }

/-! ### Form state orchestrator (input-form-state.hook.ts) -/

/-- The hook's `invalid` getter:
`keysOf(errors).find(field => errors[field] !== undefined) !== undefined`. -/
def formInvalid (errors : ErrMap) : Bool :=
  ((ErrMap.keys errors).find? (fun field => (ErrMap.idx errors field).isSome)).isSome

/-- The hook's `getValidValue()`: returns the current form value when no
field has a non-undefined error entry, and throws
`Error('Input form is not valid.')` otherwise (the thrown error is the
`Except.error` result). -/
def getValidValue (errors : ErrMap) (value : FormValue) : Except String FormValue :=
  if ((ErrMap.keys errors).find? (fun field => (ErrMap.idx errors field).isSome)).isNone
  then Except.ok value
  else Except.error "Input form is not valid."

/-! ### Derived notions used to state the properties -/

/-- Whether a chain was built purely from `NoopInputFormValidator` and
field rules (no `when`/`ConditionalInputFormValidator` node). -/
def Chain.noWhenB : Chain → Bool
  | .noop => true
  | .child _ _ parent => Chain.noWhenB parent
  | .conditional _ _ _ => false

/-- The sequence of rule target fields of a `when`-free chain, in the
order the rules were appended (root outward, i.e. first-appended first). -/
def Chain.appendSeq : Chain → List String
  | .noop => []
  | .child vf _ parent => Chain.appendSeq parent ++ [vf]
  | .conditional _ _ parent => Chain.appendSeq parent

/-- Deduplication keeping the first occurrence of each element, in order. -/
def dedupKeepFirst (l : List String) : List String :=
  l.foldl (fun acc f => if acc.contains f then acc else acc ++ [f]) []

/-! ### Helper lemmas -/

theorem ErrMap.entry?_set_self (m : ErrMap) (k : String) (v : Option String) :
    ErrMap.entry? (ErrMap.set m k v) k = some v := by
  induction m with
  | nil => simp [ErrMap.set, ErrMap.entry?]
  | cons e rest ih =>
      obtain ⟨k', v'⟩ := e
      by_cases h : k' = k
      · simp [ErrMap.set, h, ErrMap.entry?]
      · simp [ErrMap.set, h, ErrMap.entry?, ih]

theorem ErrMap.idx_set_self (m : ErrMap) (k : String) (v : Option String) :
    ErrMap.idx (ErrMap.set m k v) k = v := by
  simp [ErrMap.idx, ErrMap.entry?_set_self]

theorem ErrMap.entry?_isSome_iff_mem_keys (m : ErrMap) (k : String) :
    (ErrMap.entry? m k).isSome = true ↔ k ∈ ErrMap.keys m := by
  induction m with
  | nil => simp [ErrMap.entry?, ErrMap.keys]
  | cons e rest ih =>
      obtain ⟨k', v'⟩ := e
      by_cases h : k' = k
      · simp [ErrMap.entry?, ErrMap.keys, h]
      · simp [ErrMap.entry?, ErrMap.keys, h, ih, Ne.symm h]

theorem ErrMap.keys_contains_iff (m : ErrMap) (k : String) :
    (ErrMap.keys m).contains k = true ↔ (ErrMap.entry? m k).isSome = true := by
  rw [ErrMap.entry?_isSome_iff_mem_keys]
  exact List.elem_iff

theorem FormValue.get_set (m : FormValue) (n : String) (v : JsValue) :
    FormValue.get (FormValue.set m n v) n = v := by
  induction m with
  | nil => simp [FormValue.set, FormValue.get]
  | cons e rest ih =>
      obtain ⟨k, w⟩ := e
      by_cases h : k = n
      · simp [FormValue.set, h, FormValue.get]
      · simp [FormValue.set, h, FormValue.get, ih]

theorem FormValue.get_setValueUpdater (name : String) (v : JsValue) (prev : FormValue) :
    FormValue.get (setValueUpdater name v prev) name = v := by
  unfold setValueUpdater
  by_cases hc : (FormValue.get prev name == v) = true
  · rw [if_pos hc]
    exact beq_iff_eq.mp hc
  · rw [if_neg hc]
    exact FormValue.get_set prev name v

/-! ### Claim C1 -/

/-- Claim C1, counterexample: calling `setValue` with a value equal to the
field's current value does not replace the value object, but — contrary to
the claim — it does append the field to the touched sequence: on the
handler with form value `{a: "x"}` and empty touched list, `setValue("x")`
on field `a` leaves the form value untouched yet produces the touched list
`["a"]`, because the touched-marking in the source is outside the
value-equality guard of the updater. -/
theorem claim1_counterexample :
    (fieldSetValue ⟨[("a", JsValue.str "x")], [], []⟩ "a" (JsValue.str "x")).1
        = [("a", JsValue.str "x")]
    ∧ (fieldSetValue ⟨[("a", JsValue.str "x")], [], []⟩ "a" (JsValue.str "x")).2
        = ["a"]
    ∧ ("a" :: List.nil) ≠ ([] : List String) := by
  refine ⟨rfl, rfl, by simp⟩

/-- Claim C1 (amended): calling `setValue` with a value equal to the
field's current value never replaces the value object (the updater returns
the previous state itself), but it still appends the field to the touched
sequence when the field is not already touched (and leaves the touched
sequence unchanged when it is). -/
theorem claim1_setValue_unchanged (h : FieldsHandler) (name : String) (v : JsValue)
    (hcur : FormValue.get h.formValue name = v) :
    fieldSetValue h name v
      = (h.formValue,
         if h.touchedFields.contains name then h.touchedFields
         else h.touchedFields ++ [name]) := by
  unfold fieldSetValue setValueUpdater
  rw [hcur]
  simp

/-- Witness for `claim1_setValue_unchanged` at a concrete input. -/
theorem claim1_setValue_unchanged_witness :
    fieldSetValue ⟨[("b", JsValue.num 2)], ["b"], []⟩ "b" (JsValue.num 2)
      = ([("b", JsValue.num 2)], ["b"]) := by
  have := claim1_setValue_unchanged ⟨[("b", JsValue.num 2)], ["b"], []⟩ "b"
    (JsValue.num 2) (by rfl)
  simpa using this

/-! ### Claim C2 -/

/-- Claim C2, counterexample: the builder operation `pattern` called with
the string argument `"["` throws (the source calls `new RegExp(pattern)`
with no try/catch, and the host constructor throws a `SyntaxError` on this
malformed pattern), contradicting "builder operations never throw". -/
theorem claim2_counterexample :
    Chain.patternStr Chain.noop "x" "[" "E"
      = Except.error "SyntaxError: Invalid regular expression: [" := by
  rfl

/-- Claim C2 (amended): builder operations other than `pattern` with a
string argument are total functions of their inputs and never throw, and
chain evaluation (`isFieldValid`, `getFieldErrors`) never throws; but
`pattern` with a string argument propagates the host `RegExp` constructor
failure: it returns a chain exactly when the pattern string compiles, and
throws exactly when it does not. -/
theorem claim2_pattern_throws (c : Chain) (f p e : String) :
    ((∃ c', Chain.patternStr c f p e = Except.ok c') ↔ jsRegExpWellFormed p = true)
    ∧ ((∃ s, Chain.patternStr c f p e = Except.error s) ↔ jsRegExpWellFormed p = false) := by
  unfold Chain.patternStr jsRegExpCompile
  by_cases h : jsRegExpWellFormed p = true
  · simp [h]
  · simp only [Bool.not_eq_true] at h
    simp [h]

/-! ### Claim C7 -/

/-- Claim C7: `getValidValue` throws exactly when the error map contains
at least one field with a non-undefined error entry (equivalently, exactly
when the hook's `invalid` getter is true), and otherwise returns the
current form value unchanged. -/
theorem claim7_getValidValue (errors : ErrMap) (value : FormValue) :
    (getValidValue errors value = Except.ok value
        ↔ ∀ f, ErrMap.idx errors f = none)
    ∧ ((∃ s, getValidValue errors value = Except.error s)
        ↔ ∃ f m, ErrMap.idx errors f = some m)
    ∧ ((∃ s, getValidValue errors value = Except.error s)
        ↔ formInvalid errors = true) := by
  have key : (((ErrMap.keys errors).find?
        (fun f => (ErrMap.idx errors f).isSome)).isNone = true)
      ↔ (∀ f, ErrMap.idx errors f = none) := by
    rw [Option.isNone_iff_eq_none, List.find?_eq_none]
    constructor
    · intro hall f
      by_cases hf : f ∈ ErrMap.keys errors
      · have := hall f hf
        simpa [Option.isNone_iff_eq_none] using this
      · have hnone : ErrMap.entry? errors f = none := by
          by_contra hne
          exact hf ((ErrMap.entry?_isSome_iff_mem_keys errors f).mp
            (by simpa [Option.isSome_iff_ne_none] using hne))
        simp [ErrMap.idx, hnone]
    · intro hall f _
      simp [hall f]
  have hidx : ∀ f m, ErrMap.idx errors f = some m → ¬ (∀ g, ErrMap.idx errors g = none) := by
    intro f m hm hall
    rw [hall f] at hm
    exact Option.noConfusion hm
  unfold getValidValue formInvalid
  by_cases hc : (((ErrMap.keys errors).find?
      (fun f => (ErrMap.idx errors f).isSome)).isNone = true)
  · rw [if_pos hc]
    refine ⟨by simp [key.mp hc], ?_, ?_⟩
    · simp only [reduceCtorEq, exists_false, false_iff]
      rintro ⟨f, m, hm⟩
      exact hidx f m hm (key.mp hc)
    · simp only [reduceCtorEq, exists_false, false_iff]
      intro hs
      rw [Option.isNone_iff_eq_none] at hc
      rw [hc] at hs
      exact Bool.noConfusion hs
  · rw [if_neg hc]
    have hsome : ((ErrMap.keys errors).find?
        (fun f => (ErrMap.idx errors f).isSome)).isSome = true := by
      cases hfind : ((ErrMap.keys errors).find?
          (fun f => (ErrMap.idx errors f).isSome)) with
      | none => exact absurd (by simp [hfind]) hc
      | some x => simp
    refine ⟨?_, ?_, by simp [hsome]⟩
    · constructor
      · intro hcontra
        exact Except.noConfusion hcontra
      · intro hall
        exact absurd (key.mpr hall) hc
    constructor
    · intro _
      obtain ⟨x, hx, hpx⟩ := List.find?_isSome.mp hsome
      obtain ⟨m, hm⟩ := Option.isSome_iff_exists.mp hpx
      exact ⟨x, m, hm⟩
    · intro _
      exact ⟨"Input form is not valid.", rfl⟩

/-! ### Claim C8 -/

/-- Claim C8: when the error map's entry for the field is the empty
string, the accessor's `isInvalid()` is true and `isValid()` is false (the
empty string counts as invalid) while `getErrorMessage()` is absent; for a
non-empty string entry, `getErrorMessage()` returns that string. -/
theorem claim8_empty_string_error (h : FieldsHandler) (name : String) :
    (ErrMap.idx h.errors name = some "" →
        fieldIsInvalid h name = true ∧ fieldIsValid h name = false
        ∧ fieldGetErrorMessage h name = none)
    ∧ (∀ m, m ≠ "" → ErrMap.idx h.errors name = some m →
        fieldIsInvalid h name = true ∧ fieldGetErrorMessage h name = some m) := by
  unfold fieldIsInvalid fieldIsValid fieldGetErrorMessage
  constructor
  · intro he
    simp [he]
  · intro m hm he
    simp [he, hm]

/-- Witness for `claim8_empty_string_error` at concrete inputs: an
accessor over the error map `{a: '', b: 'Bad'}`. -/
theorem claim8_witness :
    (fieldIsInvalid ⟨[], [], [("a", some ""), ("b", some "Bad")]⟩ "a" = true
      ∧ fieldIsValid ⟨[], [], [("a", some ""), ("b", some "Bad")]⟩ "a" = false
      ∧ fieldGetErrorMessage ⟨[], [], [("a", some ""), ("b", some "Bad")]⟩ "a" = none)
    ∧ (fieldIsInvalid ⟨[], [], [("a", some ""), ("b", some "Bad")]⟩ "b" = true
      ∧ fieldGetErrorMessage ⟨[], [], [("a", some ""), ("b", some "Bad")]⟩ "b"
          = some "Bad") := by
  constructor
  · exact (claim8_empty_string_error ⟨[], [], [("a", some ""), ("b", some "Bad")]⟩ "a").1
      (by rfl)
  · exact (claim8_empty_string_error ⟨[], [], [("a", some ""), ("b", some "Bad")]⟩ "b").2
      "Bad" (by simp) (by rfl)

/-! ### Claim C10 -/

/-- Claim C10: for a field accessor obtained from the projection by a
string key, calling `map` never throws: the proxy's `get` trap stores the
accessor in the per-projection cache before returning it, the cache only
grows under further accesses, and so the lookup `this.fields[name]` inside
`map` always finds the accessor — the `'Failed to map form field'` branch
is unreachable. -/
theorem claim10_map_never_throws (fields : List String) (name : String)
    (later : List String) :
    fieldMapLookup (List.foldl proxyGet (proxyGet fields name) later) name
      = Except.ok () := by
  have h0 : name ∈ proxyGet fields name := by
    unfold proxyGet
    by_cases hc : fields.contains name = true
    · rw [if_pos hc]
      exact List.elem_iff.mp hc
    · rw [if_neg hc]
      simp
  have hstep : ∀ (l : List String) (a : String), name ∈ l → name ∈ proxyGet l a := by
    intro l a hm
    unfold proxyGet
    by_cases hc : l.contains a = true
    · rwa [if_pos hc]
    · rw [if_neg hc]
      exact List.mem_append_left _ hm
  have hfold : ∀ (ls l : List String), name ∈ l → name ∈ List.foldl proxyGet l ls := by
    intro ls
    induction ls with
    | nil => intro l hm; simpa using hm
    | cons a as ih =>
        intro l hm
        exact ih _ (hstep l a hm)
  unfold fieldMapLookup
  rw [if_pos (List.elem_iff.mpr (hfold later _ h0))]

/-! ### Claim C3 -/

/-- A single-rule chain checks exactly its rule's predicate on the
targeted field. -/
theorem isFieldValid_single_rule (f : String) (val : FieldValidator) (v : FormValue) :
    (Chain.child f val Chain.noop).isFieldValid f v
      = val.validate (FormValue.get v f) v := by
  simp [Chain.isFieldValid]

/-- A string validator rejects any field value that is not a string. -/
theorem appendStringValidator_wrong_shape (f e : String)
    (validate : String → FormValue → Bool) (v : FormValue)
    (h : (FormValue.get v f).isJsString = false) :
    (Chain.appendStringValidator Chain.noop f e validate).isFieldValid f v = false := by
  rw [Chain.appendStringValidator, Chain.appendFieldValidator, isFieldValid_single_rule]
  cases hv : FormValue.get v f <;> simp_all [JsValue.isJsString]

/-- A number validator rejects any field value that is not a number. -/
theorem appendNumberValidator_wrong_shape (f e : String)
    (validate : ℚ → FormValue → Bool) (v : FormValue)
    (h : (FormValue.get v f).isJsNumber = false) :
    (Chain.appendNumberValidator Chain.noop f e validate).isFieldValid f v = false := by
  rw [Chain.appendNumberValidator, Chain.appendFieldValidator, isFieldValid_single_rule]
  cases hv : FormValue.get v f <;> simp_all [JsValue.isJsNumber]

/-- Claim C3, counterexample: `notEquals('f', 'x', 'E')` on a form value
whose field `f` is `undefined` classifies the field as *valid*
(`undefined !== 'x'` holds) and reports no error — contradicting the claim
that every built-in builder other than the not-undefined checks treats
`undefined` as invalid. -/
theorem claim3_counterexample :
    (Chain.notEquals Chain.noop "f" (JsValue.str "x") "E").isFieldValid "f"
        [("f", JsValue.undef)] = true
    ∧ ErrMap.idx ((Chain.notEquals Chain.noop "f" (JsValue.str "x") "E").getFieldErrors
        [("f", JsValue.undef)]) "f" = none := by
  exact ⟨rfl, rfl⟩

/-- Claim C3 (amended): the typed built-in validator builders — the string
validators (`notBlank`, `minLength`, `maxLength`, `hasLength`, `pattern`,
`validMail`, `validUrl`), the number validators (`isPositive`,
`greaterThan`, `isInteger`) and `notEmpty` — classify a field whose value
is `undefined` or of the wrong runtime shape as invalid; but `notEquals`
classifies the field as invalid exactly when the value equals the
forbidden value, so it treats `undefined` (and any wrong-shape value) as
valid whenever the forbidden value differs. -/
theorem claim3_wrong_shape_invalid (f e : String) (v : FormValue) :
    ((FormValue.get v f).isJsString = false →
        (Chain.notBlank Chain.noop f e).isFieldValid f v = false
        ∧ (∀ q, (Chain.minLength Chain.noop f e q).isFieldValid f v = false)
        ∧ (∀ q, (Chain.maxLength Chain.noop f e q).isFieldValid f v = false)
        ∧ (∀ q, (Chain.hasLength Chain.noop f e q).isFieldValid f v = false)
        ∧ (∀ r, (Chain.patternRegExp Chain.noop f r e).isFieldValid f v = false)
        ∧ (∀ p c', Chain.patternStr Chain.noop f p e = Except.ok c' →
            c'.isFieldValid f v = false)
        ∧ (Chain.validMail Chain.noop f e).isFieldValid f v = false
        ∧ (Chain.validUrl Chain.noop f e).isFieldValid f v = false)
    ∧ ((FormValue.get v f).isJsNumber = false →
        (Chain.isPositive Chain.noop f e).isFieldValid f v = false
        ∧ (∀ q, (Chain.greaterThan Chain.noop f q e).isFieldValid f v = false)
        ∧ (Chain.isInteger Chain.noop f e).isFieldValid f v = false)
    ∧ ((FormValue.get v f).isJsArray = false →
        (Chain.notEmpty Chain.noop f e).isFieldValid f v = false)
    ∧ (∀ w, (Chain.notEquals Chain.noop f w e).isFieldValid f v
        = !(FormValue.get v f == w)) := by
  refine ⟨?_, ?_, ?_, ?_⟩
  · intro h
    refine ⟨?_, fun q => ?_, fun q => ?_, fun q => ?_, fun r => ?_, ?_, ?_, ?_⟩
    · exact appendStringValidator_wrong_shape f e _ v h
    · exact appendStringValidator_wrong_shape f e _ v h
    · exact appendStringValidator_wrong_shape f e _ v h
    · exact appendStringValidator_wrong_shape f e _ v h
    · exact appendStringValidator_wrong_shape f e _ v h
    · intro p c' hok
      unfold Chain.patternStr at hok
      cases hcomp : jsRegExpCompile p with
      | none => rw [hcomp] at hok; exact Except.noConfusion hok
      | some r =>
          rw [hcomp] at hok
          have : c' = Chain.patternRegExp Chain.noop f r e := by
            exact (Except.ok.inj hok).symm
          rw [this]
          exact appendStringValidator_wrong_shape f e _ v h
    · exact appendStringValidator_wrong_shape f e _ v h
    · exact appendStringValidator_wrong_shape f e _ v h
  · intro h
    exact ⟨appendNumberValidator_wrong_shape f e _ v h,
      fun q => appendNumberValidator_wrong_shape f e _ v h,
      appendNumberValidator_wrong_shape f e _ v h⟩
  · intro h
    rw [Chain.notEmpty, Chain.appendFieldValidator, isFieldValid_single_rule]
    cases hv : FormValue.get v f <;> simp_all [JsValue.isJsArray]
  · intro w
    rw [Chain.notEquals, Chain.require, Chain.appendFieldValidator,
      isFieldValid_single_rule]

/-- Witness for `claim3_wrong_shape_invalid` at a concrete input: the form
value `{f: undefined}` (so the field is `undefined`, which is neither a
string, a number nor an array). -/
theorem claim3_witness :
    (Chain.notBlank Chain.noop "f" "E").isFieldValid "f" [("f", JsValue.undef)] = false
    ∧ (Chain.isPositive Chain.noop "f" "E").isFieldValid "f" [("f", JsValue.undef)] = false
    ∧ (Chain.notEmpty Chain.noop "f" "E").isFieldValid "f" [("f", JsValue.undef)] = false := by
  refine ⟨((claim3_wrong_shape_invalid "f" "E" [("f", JsValue.undef)]).1 (by rfl)).1,
    ((claim3_wrong_shape_invalid "f" "E" [("f", JsValue.undef)]).2.1 (by rfl)).1,
    (claim3_wrong_shape_invalid "f" "E" [("f", JsValue.undef)]).2.2.1 (by rfl)⟩

/-- A `ChildInputFormValidator` whose field already has an entry in the
parent's error map passes the parent's error map through unchanged. -/
theorem getFieldErrors_child_pass (f : String) (val : FieldValidator) (c : Chain)
    (value : FormValue) (hmem : f ∈ ErrMap.keys (c.getFieldErrors value)) :
    (Chain.child f val c).getFieldErrors value = c.getFieldErrors value := by
  simp [Chain.getFieldErrors, hmem]

/-- A `ChildInputFormValidator` whose field has no entry in the parent's
error map and whose rule fails writes its message for the field. -/
theorem getFieldErrors_child_set (f : String) (val : FieldValidator) (c : Chain)
    (value : FormValue) (hnot : f ∉ ErrMap.keys (c.getFieldErrors value))
    (hfail : val.validate (FormValue.get value f) value = false) :
    (Chain.child f val c).getFieldErrors value
      = ErrMap.set (c.getFieldErrors value) f (some val.error) := by
  simp [Chain.getFieldErrors, hnot, hfail]

theorem ErrMap.mem_keys_set_self (m : ErrMap) (k : String) (v : Option String) :
    k ∈ ErrMap.keys (ErrMap.set m k v) :=
  (ErrMap.entry?_isSome_iff_mem_keys _ k).mp (by simp [ErrMap.entry?_set_self])

/-! ### Claim C4 -/

/-- Claim C4: when a chain contains two rules for the same field and the
first-appended rule fails on the given form value, `getFieldErrors` maps
the field to the first rule's message, and the later-appended rule is
skipped entirely (the error map of the two-rule chain equals the error map
of the chain without the later rule), whatever the later rule's predicate
and message are. -/
theorem claim4_first_rule_wins (c0 : Chain) (f : String) (v1 v2 : FieldValidator)
    (value : FormValue)
    (hnew : f ∉ ErrMap.keys (c0.getFieldErrors value))
    (hfail : v1.validate (FormValue.get value f) value = false) :
    (Chain.child f v2 (Chain.child f v1 c0)).getFieldErrors value
        = (Chain.child f v1 c0).getFieldErrors value
    ∧ ErrMap.idx ((Chain.child f v2 (Chain.child f v1 c0)).getFieldErrors value) f
        = some v1.error := by
  have hinner : (Chain.child f v1 c0).getFieldErrors value
      = ErrMap.set (c0.getFieldErrors value) f (some v1.error) :=
    getFieldErrors_child_set f v1 c0 value hnew hfail
  have hmem : f ∈ ErrMap.keys ((Chain.child f v1 c0).getFieldErrors value) := by
    rw [hinner]
    exact ErrMap.mem_keys_set_self _ f _
  have houter : (Chain.child f v2 (Chain.child f v1 c0)).getFieldErrors value
      = (Chain.child f v1 c0).getFieldErrors value :=
    getFieldErrors_child_pass f v2 (Chain.child f v1 c0) value hmem
  refine ⟨houter, ?_⟩
  rw [houter, hinner]
  exact ErrMap.idx_set_self _ f _

/-- Witness for `claim4_first_rule_wins` at a concrete input: the chain
`noop.notBlank('f','E1').minLength('f','E2',3)` on the form value
`{f: ""}` (the blank string fails both rules) reports `E1` for `f`. -/
theorem claim4_witness :
    ErrMap.idx (((Chain.noop.notBlank "f" "E1").minLength "f" "E2" 3).getFieldErrors
        [("f", JsValue.str "")]) "f" = some "E1" := by
  exact (claim4_first_rule_wins Chain.noop "f" _ _ [("f", JsValue.str "")]
    (by simp [Chain.getFieldErrors, ErrMap.keys]) (by rfl)).2

/-! ### Claim C5 -/

/-- The definition of `getFieldErrors` on a `ConditionalInputFormValidator`
node, with the intermediate `let` bindings inlined. -/
theorem getFieldErrors_conditional (pred : FormValue → Bool) (sub parent : Chain)
    (value : FormValue) :
    (Chain.conditional pred sub parent).getFieldErrors value
      = (if (((sub.getValidatedFields).find?
              (fun f => !((ErrMap.keys (parent.getFieldErrors value)).contains f))).isNone
            || !(pred value))
         then parent.getFieldErrors value
         else ((ErrMap.keys (sub.getFieldErrors value)).filter
              (fun f => !((ErrMap.keys (parent.getFieldErrors value)).contains f))).foldl
            (fun acc f => ErrMap.set acc f (ErrMap.idx (sub.getFieldErrors value) f))
            (parent.getFieldErrors value)) := rfl

/-- Claim C5: for a conditional sub-chain `when(pred, b => b.notBlank(x, E))`,
`getFieldErrors` reports nothing from the sub-chain when `pred(value)` is
false (the error map is the parent's, whatever `x` holds), and reports `E`
for `x` when `pred(value)` is true, `x`'s value is a blank or
whitespace-only string, and no parent rule already reported `x`. -/
theorem claim5_conditional_gating (parent : Chain) (pred : FormValue → Bool)
    (x E : String) (value : FormValue) :
    (pred value = false →
      (Chain.when parent pred (fun b => Chain.notBlank b x E)).getFieldErrors value
        = parent.getFieldErrors value)
    ∧ (pred value = true →
      ∀ s, FormValue.get value x = JsValue.str s → jsStrTrim s = "" →
      x ∉ ErrMap.keys (parent.getFieldErrors value) →
      ErrMap.idx ((Chain.when parent pred
          (fun b => Chain.notBlank b x E)).getFieldErrors value) x = some E) := by
  constructor
  · intro hpred
    rw [Chain.when, getFieldErrors_conditional, if_pos]
    rw [hpred]
    simp
  · intro hpred s hget htrim hnot
    have hcontains : ((ErrMap.keys (parent.getFieldErrors value)).contains x) = false := by
      rw [Bool.eq_false_iff]
      intro hc
      exact hnot (List.elem_iff.mp hc)
    have hvf : (Chain.notBlank Chain.noop x E).getValidatedFields = [x] := by
      simp [Chain.notBlank, Chain.appendStringValidator, Chain.appendFieldValidator,
        Chain.getValidatedFields]
    have hsub : (Chain.notBlank Chain.noop x E).getFieldErrors value = [(x, some E)] := by
      simp [Chain.notBlank, Chain.appendStringValidator, Chain.appendFieldValidator,
        Chain.getFieldErrors, ErrMap.keys, hget, htrim, ErrMap.set]
    rw [Chain.when, getFieldErrors_conditional, hvf, hsub, if_neg]
    · have hnotm : x ∉ List.map Prod.fst (parent.getFieldErrors value) := hnot
      have hfilter : (ErrMap.keys [(x, some E)]).filter
          (fun f => !((ErrMap.keys (parent.getFieldErrors value)).contains f)) = [x] := by
        simp [ErrMap.keys, List.filter, hnotm]
      rw [hfilter]
      simp only [List.foldl_cons, List.foldl_nil]
      rw [show ErrMap.idx [(x, some E)] x = some E from by
        simp [ErrMap.idx, ErrMap.entry?]]
      exact ErrMap.idx_set_self _ x _
    · rw [hpred]
      simp [List.find?, hnot]

/-- Witness for `claim5_conditional_gating` at concrete inputs: the chain
`noop.when(v => v.flag === 'y', b => b.notBlank('x', 'E'))` reports no
error on `{flag: 'n', x: '  '}` and reports `E` for `x` on
`{flag: 'y', x: '  '}`. -/
theorem claim5_witness :
    (Chain.when Chain.noop (fun v => FormValue.get v "flag" == JsValue.str "y")
        (fun b => Chain.notBlank b "x" "E")).getFieldErrors
        [("flag", JsValue.str "n"), ("x", JsValue.str "  ")] = []
    ∧ ErrMap.idx ((Chain.when Chain.noop
        (fun v => FormValue.get v "flag" == JsValue.str "y")
        (fun b => Chain.notBlank b "x" "E")).getFieldErrors
        [("flag", JsValue.str "y"), ("x", JsValue.str "  ")]) "x" = some "E" := by
  constructor
  · exact (claim5_conditional_gating Chain.noop
      (fun v => FormValue.get v "flag" == JsValue.str "y") "x" "E"
      [("flag", JsValue.str "n"), ("x", JsValue.str "  ")]).1 (by rfl)
  · exact (claim5_conditional_gating Chain.noop
      (fun v => FormValue.get v "flag" == JsValue.str "y") "x" "E"
      [("flag", JsValue.str "y"), ("x", JsValue.str "  ")]).2 (by rfl) "  "
      (by rfl) (by rfl) (by simp [Chain.getFieldErrors, ErrMap.keys])

/-! ### Claim C6 -/

/-- Claim C6, counterexample: on the chain
`noop.require('a', 'eA', …).require('b', 'eB', …)` (two field-rule nodes,
no `when`), `getValidatedFields` returns `['a', 'b']` — the outermost
field-rule node's own field comes last, after the parent's set, not first
as the claim's "own field first" description of the result would have it. -/
theorem claim6_counterexample :
    ((Chain.require (Chain.require Chain.noop "a" "eA" (fun _ _ => true))
        "b" "eB" (fun _ _ => true)).getValidatedFields = ["a", "b"])
    ∧ (["a", "b"] : List String) ≠ ["b", "a"] := by
  constructor
  · rfl
  · decide

/-- Claim C6 (amended): for every chain built purely from `require` and
the typed builders (no `when`), `getValidatedFields` returns each targeted
field at most once, ordered by the first append of a rule for that field —
a field-rule node appends its own field after the parent's set when the
field is not already listed upstream (own field last, not first). -/
theorem claim6_validated_fields_nodup (c : Chain) (h : Chain.noWhenB c = true) :
    c.getValidatedFields = dedupKeepFirst c.appendSeq
    ∧ c.getValidatedFields.Nodup := by
  induction c with
  | noop => exact ⟨rfl, List.nodup_nil⟩
  | child vf val parent ih =>
      obtain ⟨h1, h2⟩ := ih (by simpa [Chain.noWhenB] using h)
      rw [dedupKeepFirst] at h1
      constructor
      · simp only [Chain.getValidatedFields, Chain.appendSeq]
        rw [dedupKeepFirst, List.foldl_append, ← h1]
        simp only [List.foldl_cons, List.foldl_nil]
      · show (if (parent.getValidatedFields).contains vf then parent.getValidatedFields
            else parent.getValidatedFields ++ [vf]).Nodup
        by_cases hc : (parent.getValidatedFields).contains vf = true
        · rw [if_pos hc]
          exact h2
        · rw [if_neg hc]
          have hni : vf ∉ parent.getValidatedFields := fun hm => hc (List.elem_iff.mpr hm)
          rw [List.nodup_append]
          refine ⟨h2, List.nodup_singleton vf, ?_⟩
          intro a ha hmem
          rw [List.mem_singleton] at hmem
          exact hni (hmem ▸ ha)
  | conditional pred sub parent ihs ihp =>
      exact absurd h (by simp [Chain.noWhenB])

/-- Witness for `claim6_validated_fields_nodup` at a concrete input: the
two-rule chain of the counterexample. -/
theorem claim6_witness :
    ((Chain.require (Chain.require Chain.noop "a" "eA" (fun _ _ => true))
        "b" "eB" (fun _ _ => true)).getValidatedFields
      = dedupKeepFirst (Chain.require (Chain.require Chain.noop "a" "eA"
          (fun _ _ => true)) "b" "eB" (fun _ _ => true)).appendSeq)
    ∧ ((Chain.require (Chain.require Chain.noop "a" "eA" (fun _ _ => true))
        "b" "eB" (fun _ _ => true)).getValidatedFields).Nodup :=
  claim6_validated_fields_nodup _ (by rfl)

/-! ### Claim C9 -/

/-- Claim C9: the mapping-adapter round trip. For a field accessor wrapped
in `map(f, g)` (with plain, non-promise values), calling the adapter's
`setValue(f(v))` stores `g(f(v))` in the form value, and reading
`getValue()` through an adapter rebuilt over the updated snapshot yields
`f(g(f(v)))`; in particular, when `f` and `g` are identity-compatible
(`f(g(x)) = x`), `getValue()` after `setValue(x)` equals `x`. -/
theorem claim9_map_round_trip (h : FieldsHandler) (name : String)
    (f g : JsValue → JsValue) (v : JsValue) :
    ((mappedFieldIface
        (baseFieldIface
          ⟨((mappedFieldIface (baseFieldIface h name) (fun y => VP.val (f y)) g).setValue
              (f v)).1,
           ((mappedFieldIface (baseFieldIface h name) (fun y => VP.val (f y)) g).setValue
              (f v)).2,
           h.errors⟩ name)
        (fun y => VP.val (f y)) g).getValue = VP.val (f (g (f v))))
    ∧ (∀ x : JsValue, f (g x) = x →
      (mappedFieldIface
        (baseFieldIface
          ⟨((mappedFieldIface (baseFieldIface h name) (fun y => VP.val (f y)) g).setValue
              x).1,
           ((mappedFieldIface (baseFieldIface h name) (fun y => VP.val (f y)) g).setValue
              x).2,
           h.errors⟩ name)
        (fun y => VP.val (f y)) g).getValue = VP.val x) := by
  have hstore : ∀ x : JsValue,
      ((mappedFieldIface (baseFieldIface h name) (fun y => VP.val (f y)) g).setValue x).1
        = setValueUpdater name (g x) h.formValue := fun _ => rfl
  have hget : ∀ x : JsValue,
      (mappedFieldIface
        (baseFieldIface
          ⟨((mappedFieldIface (baseFieldIface h name) (fun y => VP.val (f y)) g).setValue
              x).1,
           ((mappedFieldIface (baseFieldIface h name) (fun y => VP.val (f y)) g).setValue
              x).2,
           h.errors⟩ name)
        (fun y => VP.val (f y)) g).getValue = VP.val (f (g x)) := by
    intro x
    show VP.val (f (FormValue.get
      ((mappedFieldIface (baseFieldIface h name) (fun y => VP.val (f y)) g).setValue x).1
      name)) = VP.val (f (g x))
    rw [hstore x, FormValue.get_setValueUpdater]
  refine ⟨hget (f v), fun x hx => ?_⟩
  rw [hget x, hx]

/-- Witness for `claim9_map_round_trip` at a concrete input: a number
field holding `5`, mapped through a number-to-string adapter whose
`f`/`g` pair is identity-compatible on the stored values; after
`setValue('7')` through the adapter, `getValue()` yields `'7'`. -/
theorem claim9_witness :
    (mappedFieldIface
      (baseFieldIface
        ⟨((mappedFieldIface
            (baseFieldIface ⟨[("n", JsValue.num 5)], [], []⟩ "n")
            (fun y => VP.val (match y with
              | JsValue.num q => JsValue.str (if q = 7 then "7" else "?")
              | _ => JsValue.undef))
            (fun y => match y with
              | JsValue.str "7" => JsValue.num 7
              | _ => JsValue.undef)).setValue (JsValue.str "7")).1,
         ((mappedFieldIface
            (baseFieldIface ⟨[("n", JsValue.num 5)], [], []⟩ "n")
            (fun y => VP.val (match y with
              | JsValue.num q => JsValue.str (if q = 7 then "7" else "?")
              | _ => JsValue.undef))
            (fun y => match y with
              | JsValue.str "7" => JsValue.num 7
              | _ => JsValue.undef)).setValue (JsValue.str "7")).2,
         []⟩ "n")
      (fun y => VP.val (match y with
        | JsValue.num q => JsValue.str (if q = 7 then "7" else "?")
        | _ => JsValue.undef))
      (fun y => match y with
        | JsValue.str "7" => JsValue.num 7
        | _ => JsValue.undef)).getValue = VP.val (JsValue.str "7") :=
  (claim9_map_round_trip ⟨[("n", JsValue.num 5)], [], []⟩ "n"
    (fun y => match y with
      | JsValue.num q => JsValue.str (if q = 7 then "7" else "?")
      | _ => JsValue.undef)
    (fun y => match y with
      | JsValue.str "7" => JsValue.num 7
      | _ => JsValue.undef) (JsValue.num 0)).2 (JsValue.str "7") (by rfl)
